import Mathlib

/-!
Shallow embedding of the route-optimization engine of the
Liquor-Stores-Visited repository.

The embedded code is the `useRouteOptimizer` hook of
`docs/ROUTE_PLANNER_CODE_EXAMPLES.md` (haversine-based nearest-neighbor
sequencer, route cache with TTL and capacity 50, `extractRouteStats`,
`calculateRoute`, `handleDirectionsError`) and the batching helpers
`createRouteBatches` / `calculateBatchRoutes` of
`docs/ROUTE_PLANNER_RESEARCH.md`.

Modelling conventions:
* JavaScript numbers are modelled as rationals (`ℚ`); the distinguished
  `NaN` value is a separate constructor of `Coord` because the validity
  filter tests `isNaN`.  Floating-point rounding plays no role in any
  claim checked here.
* The haversine distance itself computes with `Math.sin`/`Math.cos`/
  `Math.atan2`; it is modelled as an abstract distance parameter
  `dist : Store → Store → ℚ`, so every theorem holds for the actual
  haversine function in particular.
* In-place mutation (`storeIds.sort()`, the cache `Map`) is modelled by
  explicit state passing: each cache operation returns the value of the
  caller's (sorted-in-place) array together with the new cache contents.
* The external `DirectionsService.route` provider is a parameter
  `route : RouteRequest → Except JsThrown DirectionsResult`; a thrown
  rejection is the `Except.error` case.
* Loops whose measure is not structural are written with an explicit
  fuel argument; the top-level entry points pass fuel that provably
  suffices, so the functions compute exactly the JS loops.
-/

namespace LiquorRoute

/-- A JavaScript number as far as the route planner inspects one:
either `NaN` or an (extended-precision, here rational) value. -/
inductive Coord where
  | nan : Coord
  | val : ℚ → Coord
deriving DecidableEq, Repr

/-- JS truthiness of a number: `0` and `NaN` are falsy. -/
def Coord.truthy : Coord → Bool
  | .nan => false
  | .val q => q != 0

/-- `isNaN` on the modelled number. -/
def Coord.isNaN : Coord → Bool
  | .nan => true
  | .val _ => false

/-- The fields of the `Store` interface (`src/types/store.ts`) that the
route planner reads.  `lat`/`lng` have TypeScript type `number`. -/
structure Store where
  id : String
  name : String
  address : String
  lat : Coord
  lng : Coord
deriving DecidableEq, Repr

/-- The coordinate filter of `calculateRoute`
(`s => s.lat && s.lng && !isNaN(s.lat) && !isNaN(s.lng)`):
JS truthiness of both coordinates plus a redundant `NaN` test.
Note that it performs no range check and rejects the coordinate `0`. -/
def isValidStore (s : Store) : Bool :=
  s.lat.truthy && s.lng.truthy && !s.lat.isNaN && !s.lng.isNaN

/-- The validity predicate as the specification words it
(Modelled from the spec: "finite, in-range coordinates
(latitude in [-90,90], longitude in [-180,180])"). -/
def specValidStore (s : Store) : Bool :=
  match s.lat, s.lng with
  | .val a, .val b => decide (-90 ≤ a ∧ a ≤ 90 ∧ -180 ≤ b ∧ b ≤ 180)
  | _, _ => false

/-! ### JS string ordering (`Array.prototype.sort` default comparator)

The default comparator orders strings by their numeric code units.
`charListLe` is that order on the underlying character lists. -/

/-- Code-unit comparison of two character lists, `true` iff the first is
less than or equal to the second in JS string order. -/
def charListLe : List Char → List Char → Bool
  | [], _ => true
  | _ :: _, [] => false
  | a :: as, b :: bs =>
    if a.toNat < b.toNat then true
    else if b.toNat < a.toNat then false
    else charListLe as bs

/-- JS string order on ids. -/
def idLe (s t : String) : Prop := charListLe s.data t.data = true

instance : DecidableRel idLe := fun s t => by
  unfold idLe
  infer_instance

/-- `storeIds.sort()`: sorting the id array with the default (code-unit)
comparator.  Any comparison sort computes the same list because the
order is linear, so `insertionSort` is a faithful model. -/
def sortIds (ids : List String) : List String :=
  ids.insertionSort idLe

/-- `storeIds.sort().join(',')`: the cache key of a stop set. -/
def cacheKey (ids : List String) : String :=
  String.intercalate "," (sortIds ids)

theorem charListLe_total (a b : List Char) :
    charListLe a b = true ∨ charListLe b a = true := by
  induction a generalizing b with
  | nil => exact Or.inl rfl
  | cons x xs ih =>
    cases b with
    | nil => exact Or.inr rfl
    | cons y ys =>
      by_cases hxy : x.toNat < y.toNat
      · left; simp [charListLe, hxy]
      · by_cases hyx : y.toNat < x.toNat
        · right; simp [charListLe, hyx]
        · rcases ih ys with h | h
          · left; simp [charListLe, hxy, hyx, h]
          · right; simp [charListLe, hxy, hyx, h]

theorem charListLe_trans {a b c : List Char}
    (hab : charListLe a b = true) (hbc : charListLe b c = true) :
    charListLe a c = true := by
  induction a generalizing b c with
  | nil => rfl
  | cons x xs ih =>
    cases b with
    | nil => simp [charListLe] at hab
    | cons y ys =>
      cases c with
      | nil => simp [charListLe] at hbc
      | cons z zs =>
        simp only [charListLe] at hab hbc ⊢
        rcases Nat.lt_trichotomy x.toNat y.toNat with h1 | h1 | h1
        · rcases Nat.lt_trichotomy y.toNat z.toNat with h2 | h2 | h2
          · rw [if_pos (by omega)]
          · rw [if_pos (by omega)]
          · rw [if_neg (by omega), if_pos (by omega)] at hbc
            simp at hbc
        · rcases Nat.lt_trichotomy y.toNat z.toNat with h2 | h2 | h2
          · rw [if_pos (by omega)]
          · rw [if_neg (by omega), if_neg (by omega)] at hab
            rw [if_neg (by omega), if_neg (by omega)] at hbc
            rw [if_neg (by omega), if_neg (by omega)]
            exact ih hab hbc
          · rw [if_neg (by omega), if_pos (by omega)] at hbc
            simp at hbc
        · rw [if_neg (by omega), if_pos (by omega)] at hab
          simp at hab

theorem charListLe_antisymm {a b : List Char}
    (hab : charListLe a b = true) (hba : charListLe b a = true) : a = b := by
  induction a generalizing b with
  | nil =>
    cases b with
    | nil => rfl
    | cons y ys => simp [charListLe] at hba
  | cons x xs ih =>
    cases b with
    | nil => simp [charListLe] at hab
    | cons y ys =>
      simp only [charListLe] at hab hba
      rcases Nat.lt_trichotomy x.toNat y.toNat with h1 | h1 | h1
      · rw [if_neg (by omega), if_pos (by omega)] at hba
        simp at hba
      · rw [if_neg (by omega), if_neg (by omega)] at hab
        rw [if_neg (by omega), if_neg (by omega)] at hba
        have hc : x = y := Char.ext (UInt32.ext h1)
        rw [hc, ih hab hba]
      · rw [if_neg (by omega), if_pos (by omega)] at hab
        simp at hab

instance : IsTotal String idLe := ⟨fun s t => charListLe_total s.data t.data⟩

instance : IsTrans String idLe := ⟨fun _ _ _ => charListLe_trans⟩

instance : IsAntisymm String idLe :=
  ⟨fun _ _ hab hba => String.ext (charListLe_antisymm hab hba)⟩

/-! ### Provider result and cache model -/

/-- A `{text, value}` pair as the Directions API returns for a leg's
`distance` and `duration`. -/
structure TextValue where
  text : String
  value : ℕ
deriving DecidableEq, Repr

/-- One leg of a provider response (`google.maps.DirectionsLeg`), the
fields the planner reads. -/
structure RouteLeg where
  distance : Option TextValue
  duration : Option TextValue
  start_address : String
  end_address : String
deriving DecidableEq, Repr

/-- One route of a provider response: its legs and the optional
`waypoint_order` index permutation. -/
structure Route where
  legs : List RouteLeg
  waypointOrder : Option (List ℕ)
deriving DecidableEq, Repr

/-- A `google.maps.DirectionsResult`. -/
structure DirectionsResult where
  routes : List Route
deriving DecidableEq, Repr

/-- A cache entry (`CachedRoute` in the hook). -/
structure CachedRoute where
  storeIds : List String
  result : DirectionsResult
  timestamp : ℤ
deriving DecidableEq, Repr

/-- The cache `Map<string, CachedRoute>`, as its entry list in insertion
order (JS `Map` iterates in insertion order). -/
abbrev Cache := List (String × CachedRoute)

/-- `Map.get`. -/
def mapGet (c : Cache) (k : String) : Option CachedRoute :=
  match c.find? (fun p => p.1 == k) with
  | some p => some p.2
  | none => none

/-- `Map.delete` (keys are unique by construction, so filtering is the
deletion of the single entry). -/
def mapDelete (c : Cache) (k : String) : Cache :=
  c.filter (fun p => p.1 != k)

/-- `Map.set`: overwrite in place if the key exists, else append. -/
def mapSet (c : Cache) (k : String) (v : CachedRoute) : Cache :=
  if c.any (fun p => p.1 == k) then
    c.map (fun p => if p.1 == k then (k, v) else p)
  else
    c ++ [(k, v)]

/-- The cache TTL: 5 minutes in milliseconds. -/
def cacheTTL : ℤ := 5 * 60 * 1000

/-- Result of `getCachedRoute`: the caller's `storeIds` array after the
in-place `sort()`, the cache after a possible stale-entry deletion, and
the returned value. -/
structure GetResult where
  sortedIds : List String
  cache : Cache
  result : Option DirectionsResult
deriving DecidableEq, Repr

/-- `getCachedRoute` of the hook: sorts the id array in place, looks the
key up, deletes and misses if the entry is older than the TTL. -/
def getCachedRoute (cache : Cache) (now : ℤ) (storeIds : List String) :
    GetResult :=
  let sorted := sortIds storeIds
  let key := String.intercalate "," sorted
  match mapGet cache key with
  | some cached =>
    if now - cached.timestamp > cacheTTL then
      ⟨sorted, mapDelete cache key, none⟩
    else
      ⟨sorted, cache, some cached.result⟩
  | none => ⟨sorted, cache, none⟩

/-- Result of `setCachedRoute`: the caller's `storeIds` array after the
in-place `sort()` and the new cache contents. -/
structure SetResult where
  sortedIds : List String
  cache : Cache
deriving DecidableEq, Repr

/-- The entry `Array.from(entries).sort(([,a],[,b]) => a.timestamp -
b.timestamp)[0]`: the first entry in insertion order among those with
the smallest timestamp (JS sort is stable). -/
def oldestEntry : Cache → Option (String × CachedRoute)
  | [] => none
  | e :: es =>
    some (es.foldl (fun best p =>
      if p.2.timestamp < best.2.timestamp then p else best) e)

/-- `setCachedRoute` of the hook: sorts the id array in place, evicts
the oldest entry when at capacity 50, then stores the (now sorted)
array together with the result and timestamp. -/
def setCachedRoute (cache : Cache) (now : ℤ) (storeIds : List String)
    (result : DirectionsResult) : SetResult :=
  let sorted := sortIds storeIds
  let key := String.intercalate "," sorted
  let cache1 :=
    if 50 ≤ cache.length then
      match oldestEntry cache with
      | some e => mapDelete cache e.1
      | none => cache
    else cache
  ⟨sorted, mapSet cache1 key ⟨sorted, result, now⟩⟩

/-! ### Local sequencer: `optimizeNearestNeighbor` -/

/-- The `unvisited.reduce((prev, curr) => currDist < prevDist ? curr :
prev)` step: a left fold keeping the accumulator unless the current
element is strictly closer, so the first-encountered minimum wins. -/
def jsReduceMin (f : Store → ℚ) (a : Store) (l : List Store) : Store :=
  l.foldl (fun prev curr => if f curr < f prev then curr else prev) a

/-- The `while (unvisited.length > 0)` loop of
`optimizeNearestNeighbor`: pick the nearest unvisited stop (by
`jsReduceMin`), append it, and remove its first occurrence
(`unvisited.splice(unvisited.indexOf(nearest), 1)`; JS compares by
reference, the model by value — identical whenever the chosen stop is
the first occurrence of its value, which `jsReduceMin` guarantees).
The loop consumes one element per iteration, so fuel
`unvisited.length` makes the recursion structural without changing the
computed list. -/
def nnLoop (dist : Store → Store → ℚ) : ℕ → Store → List Store → List Store
  | 0, _, _ => []
  | _ + 1, _, [] => []
  | fuel + 1, current, x :: xs =>
    let nearest := jsReduceMin (dist current) x xs
    nearest :: nnLoop dist fuel nearest ((x :: xs).erase nearest)

/-- `optimizeNearestNeighbor` of the hook: greedy nearest-neighbor from
the first stop.  The haversine distance is the `dist` parameter. -/
def optimizeNearestNeighbor (dist : Store → Store → ℚ)
    (stores : List Store) : List Store :=
  if stores.length ≤ 1 then stores
  else
    match stores with
    | [] => []
    | current :: unvisited => current :: nnLoop dist unvisited.length current unvisited

/-- Modelled from the spec's wording of the greedy step: the index of
the first element of the list attaining the minimal `f`-value. -/
def firstMinIndex (f : Store → ℚ) : List Store → ℕ
  | [] => 0
  | x :: xs =>
    let j := firstMinIndex f xs
    match xs[j]? with
    | none => 0
    | some y => if f y < f x then j + 1 else 0

/-- Modelled from the spec: at each step append the not-yet-visited
stop with minimum distance to the last-appended stop, ties broken by
input order (first encountered wins); formulated by removing the first
minimal *position* rather than the first occurrence of the chosen
value. -/
def greedySpecLoop (dist : Store → Store → ℚ) :
    ℕ → Store → List Store → List Store
  | 0, _, _ => []
  | _ + 1, _, [] => []
  | fuel + 1, current, x :: xs =>
    let j := firstMinIndex (dist current) (x :: xs)
    match (x :: xs)[j]? with
    | none => []
    | some m => m :: greedySpecLoop dist fuel m ((x :: xs).eraseIdx j)

/-- Modelled from the spec: the greedy sequencer, anchored at the first
element, input returned unchanged for size ≤ 1. -/
def greedySpec (dist : Store → Store → ℚ) (stores : List Store) :
    List Store :=
  if stores.length ≤ 1 then stores
  else
    match stores with
    | [] => []
    | current :: unvisited =>
      current :: greedySpecLoop dist unvisited.length current unvisited

/-! ### Provider request, error handling, statistics -/

/-- A `{lat, lng}` literal. -/
structure LatLng where
  lat : Coord
  lng : Coord
deriving DecidableEq, Repr

/-- A waypoint literal `{location, stopover}`. -/
structure Waypoint where
  location : LatLng
  stopover : Bool
deriving DecidableEq, Repr

/-- The request handed to `directionsService.route`. -/
structure RouteRequest where
  origin : Store
  destination : Store
  waypoints : List Waypoint
  travelMode : String
  optimizeWaypoints : Bool
deriving DecidableEq, Repr

/-- A value thrown by the provider call: either an `Error` with a
message or a non-`Error` value. -/
inductive JsThrown where
  | error : String → JsThrown
  | nonError : JsThrown
deriving DecidableEq, Repr

/-- `true` iff `needle` occurs at the start of `hay`. -/
def startsWithChars : List Char → List Char → Bool
  | _, [] => true
  | [], _ :: _ => false
  | a :: as, b :: bs => a == b && startsWithChars as bs

/-- `true` iff `needle` occurs somewhere in `hay`. -/
def containsChars : List Char → List Char → Bool
  | [], needle => startsWithChars [] needle
  | h :: t, needle => startsWithChars (h :: t) needle || containsChars t needle

/-- `err.message.includes(pat)`. -/
def containsSub (s pat : String) : Bool :=
  containsChars s.data pat.data

/-- `handleDirectionsError` of the hook. -/
def handleDirectionsError : JsThrown → String
  | .nonError => "Failed to calculate route. Please try again."
  | .error msg =>
    if containsSub msg "INVALID_REQUEST" then
      "Invalid route request. Check store coordinates."
    else if containsSub msg "MAX_WAYPOINTS_EXCEEDED" then
      "Too many stops (max 25). Try selecting fewer stores."
    else if containsSub msg "NOT_FOUND" then
      "Could not find a route between these locations."
    else if containsSub msg "OVER_QUERY_LIMIT" then
      "Too many requests. Please wait and try again."
    else msg

/-- A row of the stop-by-stop breakdown (`StopInfo`). -/
structure StopInfo where
  order : ℕ
  storeName : String
  address : String
  distance : String
  duration : String
deriving DecidableEq, Repr

/-- `RouteStats` of the hook.  `totalDistanceMeters` is the meter sum
the hook accumulates before converting it to the displayed miles
string; the two formatted display strings (`totalDistance`,
`totalDuration`) are that sum and duration rendered and are not
modelled further. -/
structure RouteStats where
  totalDistanceMeters : ℕ
  totalDurationSeconds : ℕ
  stops : List StopInfo
  waypointOrder : List ℕ
deriving DecidableEq, Repr

/-- JS `x || d` for an optional string: `undefined` and `""` are
falsy. -/
def jsOrStr (o : Option String) (d : String) : String :=
  match o with
  | some s => if s = "" then d else s
  | none => d

/-- The `legs.forEach((leg, index) => stops.push({...}))` loop of
`extractRouteStats`. -/
def legsToStops (stores : List Store) : ℕ → List RouteLeg → List StopInfo
  | _, [] => []
  | index, leg :: rest =>
    { order := index
      storeName := jsOrStr (stores[index]?.map Store.name) "Start"
      address := leg.start_address
      distance := jsOrStr (leg.distance.map TextValue.text) "N/A"
      duration := jsOrStr (leg.duration.map TextValue.text) "N/A" } ::
      legsToStops stores (index + 1) rest

/-- `totalDistance += leg.distance?.value || 0` summed over the legs. -/
def legsTotalDistance (legs : List RouteLeg) : ℕ :=
  (legs.map (fun l => (l.distance.map TextValue.value).getD 0)).sum

/-- `totalDuration += leg.duration?.value || 0` summed over the legs. -/
def legsTotalDuration (legs : List RouteLeg) : ℕ :=
  (legs.map (fun l => (l.duration.map TextValue.value).getD 0)).sum

/-- `extractRouteStats` of the hook.  `none` models the `TypeError` the
JS code throws when `result.routes` is empty (`result.routes[0].legs`)
or when the legs array is empty (`legs[legs.length - 1].end_address`). -/
def extractRouteStats (result : DirectionsResult) (stores : List Store) :
    Option RouteStats :=
  match result.routes with
  | [] => none
  | route :: _ =>
    match route.legs.getLast? with
    | none => none
    | some lastLeg =>
      some
        { totalDistanceMeters := legsTotalDistance route.legs
          totalDurationSeconds := legsTotalDuration route.legs
          stops := legsToStops stores 0 route.legs ++
            [{ order := route.legs.length
               storeName := jsOrStr (stores[stores.length - 1]?.map Store.name) "End"
               address := lastLeg.end_address
               distance := "0 mi"
               duration := "0 mins" }]
          waypointOrder := route.waypointOrder.getD [] }

/-! ### `calculateRoute`: the orchestrator -/

/-- The hook state `calculateRoute` reads and writes:
`directionsResult`, `routeStats`, `error`, and the cache ref. -/
structure HookState where
  directionsResult : Option DirectionsResult
  routeStats : Option RouteStats
  error : Option String
  cache : Cache
deriving DecidableEq, Repr

/-- The outcome of one `calculateRoute(stores)` call.
`returned = some b` is the promise resolving to `b`; `none` models an
exception escaping the function (only possible on the cache-hit path,
where `extractRouteStats` runs outside the `try`).  `requests` lists
the provider requests issued, in order.  `statsStores` is the stop
list handed to `extractRouteStats` (the code's `validStores` on a
cache hit, `finalOrder` after a fresh provider response): the realized
global stop order. -/
structure CalcResult where
  returned : Option Bool
  state : HookState
  requests : List RouteRequest
  statsStores : Option (List Store)
deriving DecidableEq, Repr

/-- The message of the JS `TypeError` raised inside the `try` block
when a provider result carries no route or no legs; its exact text is
irrelevant to every claim. -/
def typeErrorMessage : String := "Cannot read properties of undefined"

/-- The provider request built from an ordered nonempty stop list
`b0 :: brest`: origin = first stop, destination = last stop
(`stores[stores.length - 1]`), intermediate waypoints = `slice(1, -1)`,
driving mode, `optimizeWaypoints: true`.  Both `calculateRoute` (on the
sequencer's output) and `calculateBatchRoutes` (on each batch) build
exactly this request. -/
def mkRouteRequest (b0 : Store) (brest : List Store) : RouteRequest :=
  { origin := b0
    destination := brest.getLastD b0
    waypoints := brest.dropLast.map (fun s => ⟨⟨s.lat, s.lng⟩, true⟩)
    travelMode := "DRIVING"
    optimizeWaypoints := true }

/-- The reorder step of `calculateRoute` (lines 226–234):
`if (result.routes[0]?.waypoint_order)` — an array (even an empty one)
is truthy, `undefined` is falsy — then
`[optimized[0], ...order.map(idx => optimized[idx + 1]),
optimized[optimized.length - 1]]`.  An out-of-range index (impossible
for a well-formed provider permutation) yields `undefined` in JS; the
model drops it. -/
def remapFinalOrder (o0 : Store) (orest : List Store)
    (result : DirectionsResult) : List Store :=
  match result.routes.head? >>= Route.waypointOrder with
  | some order =>
    o0 :: order.filterMap (fun idx => (o0 :: orest)[idx + 1]?) ++
      [orest.getLastD o0]
  | none => o0 :: orest

/-- The `try { ... } catch` block of `calculateRoute` after the
sequencer produced the nonempty seed order `o0 :: orest`: issue the
single provider request, remap the returned waypoint order, extract the
statistics, populate the cache.  `sortedIds` is the (sorted in place)
id array that `setCachedRoute` receives. -/
def missFlow (route : RouteRequest → Except JsThrown DirectionsResult)
    (now : ℤ) (st1 : HookState) (sortedIds : List String)
    (o0 : Store) (orest : List Store) : CalcResult :=
  let req := mkRouteRequest o0 orest
  match route req with
  | .error e =>
    ⟨some false,
      { st1 with
          error := some (handleDirectionsError e)
          directionsResult := none
          routeStats := none }, [req], none⟩
  | .ok result =>
    let finalOrder := remapFinalOrder o0 orest result
    match extractRouteStats result finalOrder with
    | some stats =>
      let s := setCachedRoute st1.cache now sortedIds result
      ⟨some true,
        { st1 with
            directionsResult := some result
            routeStats := some stats
            cache := s.cache }, [req],
        some finalOrder⟩
    | none =>
      -- the TypeError lands in the catch block
      ⟨some false,
        { st1 with
            directionsResult := none
            routeStats := none
            error := some (handleDirectionsError
              (JsThrown.error typeErrorMessage)) }, [req],
        some finalOrder⟩

/-- `calculateRoute` of `useRouteOptimizer`, with the haversine
distance and the `directionsService.route` provider as parameters,
state passed explicitly, and `now` the value of `Date.now()` during the
call.  Each branch mirrors one exit of the JS function. -/
def calculateRoute (dist : Store → Store → ℚ)
    (route : RouteRequest → Except JsThrown DirectionsResult)
    (now : ℤ) (st : HookState) (stores : List Store) : CalcResult :=
  if stores.length < 2 then
    ⟨some false, { st with error := some "Please select at least 2 stores" }, [], none⟩
  else
    let validStores := stores.filter isValidStore
    if validStores.length < 2 then
      ⟨some false, { st with error := some "Some stores have invalid coordinates" }, [], none⟩
    else
      let storeIds := validStores.map Store.id
      let g := getCachedRoute st.cache now storeIds
      match g.result with
      | some cached =>
        match extractRouteStats cached validStores with
        | some stats =>
          ⟨some true,
            { st with
                cache := g.cache
                directionsResult := some cached
                routeStats := some stats
                error := none }, [], some validStores⟩
        | none =>
          -- `setDirectionsResult(cached)` already ran; the TypeError
          -- thrown by `extractRouteStats` escapes `calculateRoute`.
          ⟨none, { st with cache := g.cache, directionsResult := some cached },
            [], some validStores⟩
      | none =>
        -- `setIsOptimizing(true); setError(null);`
        let st1 : HookState := { st with cache := g.cache, error := none }
        match optimizeNearestNeighbor dist validStores with
        | [] =>
          -- unreachable: `validStores.length ≥ 2` and the sequencer
          -- permutes its input
          ⟨none, st1, [], none⟩
        | o0 :: orest => missFlow route now st1 g.sortedIds o0 orest

/-! ### Batch planner (`ROUTE_PLANNER_RESEARCH.md`) -/

/-- The loop of `createRouteBatches`:
`for (let i = 0; i < stores.length; i += batchSize)` with
`batchSize = 24`, pushing `stores.slice(i, i + batchSize + 1)`.  The
index advances by 24 each iteration, so fuel `stores.length` suffices
(one iteration needs `i < stores.length`, and `i` grows faster than the
iteration count). -/
def createBatchesLoop (stores : List Store) : ℕ → ℕ → List (List Store)
  | 0, _ => []
  | fuel + 1, i =>
    if i < stores.length then
      (stores.drop i).take 25 :: createBatchesLoop stores fuel (i + 24)
    else []

/-- `createRouteBatches` of the research document: split into slices of
25 stops stepping by 24, so consecutive slices share one stop. -/
def createRouteBatches (stores : List Store) : List (List Store) :=
  createBatchesLoop stores stores.length 0

/-- `calculateBatchRoutes` of the research document: one sequential
provider call per batch of at least 2 stops (`if (batch.length < 2)
continue`), aborting on the first rejection.  Returns the collected
results (or the thrown value) together with the requests issued. -/
def calculateBatchRoutes
    (route : RouteRequest → Except JsThrown DirectionsResult) :
    List (List Store) →
      Except JsThrown (List DirectionsResult) × List RouteRequest
  | [] => (.ok [], [])
  | batch :: rest =>
    if batch.length < 2 then calculateBatchRoutes route rest
    else
      match batch with
      | [] => (.ok [], [])   -- unreachable: `batch.length ≥ 2`
      | b0 :: brest =>
        let req := mkRouteRequest b0 brest
        match route req with
        | .error e => (.error e, [req])
        | .ok r =>
          match calculateBatchRoutes route rest with
          | (.ok results, reqs) => (.ok (r :: results), req :: reqs)
          | (.error e, reqs) => (.error e, req :: reqs)

/-- Concatenation of overlapping segments with the duplicated boundary
stop dropped from the head of every segment after the first —
the spec's "concatenating all segments' stop sequences minus the
duplicated boundary stops". -/
def joinOverlapping : List (List Store) → List Store
  | [] => []
  | b :: rest => b ++ (rest.map (fun s => s.drop 1)).flatten

/-! ## Lemmas -/

theorem sortIds_sorted (ids : List String) : List.Sorted idLe (sortIds ids) :=
  List.sorted_insertionSort idLe ids

theorem sortIds_perm (ids : List String) : (sortIds ids).Perm ids :=
  List.perm_insertionSort idLe ids

theorem sortIds_eq_of_perm {l₁ l₂ : List String} (h : l₁.Perm l₂) :
    sortIds l₁ = sortIds l₂ :=
  List.eq_of_perm_of_sorted
    ((sortIds_perm l₁).trans (h.trans (sortIds_perm l₂).symm))
    (sortIds_sorted l₁) (sortIds_sorted l₂)

theorem mapGet_cons_ne {k : String} {p : String × CachedRoute} {t : Cache}
    (hp : (p.1 == k) = false) : mapGet (p :: t) k = mapGet t k := by
  unfold mapGet
  rw [List.find?_cons_of_neg _ (by simp [hp])]

theorem mapGet_of_any_true {k : String} {v : CachedRoute} (c : Cache)
    (h : c.any (fun p => p.1 == k) = true) :
    mapGet (c.map (fun p => if p.1 == k then (k, v) else p)) k = some v := by
  induction c with
  | nil => simp at h
  | cons p t ih =>
    cases hp : (p.1 == k) with
    | true =>
      rw [List.map_cons, if_pos hp]
      unfold mapGet
      rw [List.find?_cons_of_pos _ (by simp)]
    | false =>
      rw [List.any_cons, hp, Bool.false_or] at h
      rw [List.map_cons, if_neg (by simp [hp]), mapGet_cons_ne hp]
      exact ih h

theorem mapGet_of_any_false {k : String} {v : CachedRoute} (c : Cache)
    (h : c.any (fun p => p.1 == k) = false) :
    mapGet (c ++ [(k, v)]) k = some v := by
  induction c with
  | nil => simp [mapGet, List.find?]
  | cons p t ih =>
    rw [List.any_cons, Bool.or_eq_false_iff] at h
    rw [List.cons_append, mapGet_cons_ne h.1]
    exact ih h.2

theorem mapGet_mapSet_self (c : Cache) (k : String) (v : CachedRoute) :
    mapGet (mapSet c k v) k = some v := by
  unfold mapSet
  by_cases h : c.any (fun p => p.1 == k)
  · rw [if_pos h]; exact mapGet_of_any_true c h
  · rw [if_neg h]; exact mapGet_of_any_false c (by rwa [Bool.not_eq_true] at h)

/-! ## Claims -/

/-- **C6.** For every stop-id list and every permutation of it, the
computed cache key (`storeIds.sort().join(',')`) is identical: the key
depends only on the membership of the id set, not on presentation
order. -/
theorem cacheKey_perm_invariant (ids₁ ids₂ : List String)
    (h : ids₁.Perm ids₂) : cacheKey ids₁ = cacheKey ids₂ := by
  unfold cacheKey
  rw [sortIds_eq_of_perm h]

/-- Witness for C6: the two orderings of `{"a","b"}` produce the same
key. -/
theorem cacheKey_perm_invariant_witness :
    cacheKey ["b", "a"] = cacheKey ["a", "b"] :=
  cacheKey_perm_invariant ["b", "a"] ["a", "b"] (by decide)

/-- A concrete `DirectionsResult` used by the concrete cache
scenarios. -/
def demoResult : DirectionsResult :=
  ⟨[⟨[⟨none, none, "", ""⟩], none⟩]⟩

/-- **C9.** Both cache operations sort their `storeIds` argument in
place (modelled by the `sortedIds` component, the value of the caller's
array after the call): after any lookup or store the caller's array is
the sorted permutation of what was passed — not, in general, its
original order — and `setCachedRoute` stores that sorted array in the
cache entry. -/
theorem cacheOps_sort_in_place (cache : Cache) (now : ℤ)
    (ids : List String) (result : DirectionsResult) :
    (getCachedRoute cache now ids).sortedIds = sortIds ids
    ∧ (setCachedRoute cache now ids result).sortedIds = sortIds ids
    ∧ List.Sorted idLe (sortIds ids)
    ∧ (sortIds ids).Perm ids
    ∧ mapGet (setCachedRoute cache now ids result).cache (cacheKey ids) =
        some ⟨sortIds ids, result, now⟩
    ∧ sortIds ["b", "a"] ≠ ["b", "a"] := by
  refine ⟨?_, rfl, sortIds_sorted ids, sortIds_perm ids, ?_, by decide⟩
  · simp only [getCachedRoute]
    cases hm : mapGet cache (String.intercalate "," (sortIds ids)) with
    | none => simp [hm]
    | some cached =>
      by_cases h : now - cached.timestamp > cacheTTL
      · simp [hm, h]
      · simp [hm, h]
  · exact mapGet_mapSet_self _ _ _

/-- **C10.** The cache key is not injective: the singleton id set
`{"a,b"}` and the two-element id set `{"a","b"}` are distinct but
produce the same key, so a lookup for one set is served the route
cached for the other. -/
theorem cacheKey_not_injective :
    cacheKey ["a,b"] = cacheKey ["a", "b"]
    ∧ (["a,b"] : List String) ≠ ["a", "b"]
    ∧ (getCachedRoute (setCachedRoute [] 0 ["a,b"] demoResult).cache 0
        ["a", "b"]).result = some demoResult := by
  refine ⟨by decide, by decide, ?_⟩
  decide

/-! ### Batch planner lemmas -/

theorem createBatchesLoop_of_le (stores : List Store) (fuel i : ℕ)
    (h : stores.length ≤ i) : createBatchesLoop stores fuel i = [] := by
  cases fuel with
  | zero => rfl
  | succ f => simp [createBatchesLoop, Nat.not_lt.mpr h]

theorem createBatchesLoop_length (stores : List Store) :
    ∀ fuel i, stores.length - i ≤ fuel →
      (createBatchesLoop stores fuel i).length =
        (stores.length - i + 23) / 24 := by
  intro fuel
  induction fuel with
  | zero =>
    intro i h
    have hi : stores.length ≤ i := by omega
    rw [createBatchesLoop_of_le stores 0 i hi]
    have : stores.length - i = 0 := by omega
    simp [this]
  | succ f ih =>
    intro i h
    by_cases hi : i < stores.length
    · rw [createBatchesLoop, if_pos hi, List.length_cons,
        ih (i + 24) (by omega)]
      rcases Nat.lt_or_ge (stores.length - i) 25 with hd | hd
      · have h1 : stores.length - (i + 24) = 0 := by omega
        have h2 : (stores.length - i + 23) / 24 = 1 := by
          have hlo : 1 ≤ (stores.length - i + 23) / 24 :=
            (Nat.le_div_iff_mul_le (by omega)).mpr (by omega)
          have hhi : (stores.length - i + 23) / 24 < 2 :=
            (Nat.div_lt_iff_lt_mul (by omega)).mpr (by omega)
          omega
        rw [h1, h2]
      · have h1 : stores.length - i + 23 =
            (stores.length - (i + 24) + 23) + 24 := by omega
        rw [h1, Nat.add_div_right _ (by omega)]
    · rw [createBatchesLoop, if_neg hi]
      have : stores.length - i = 0 := by omega
      simp [this]

theorem createBatchesLoop_chain (stores : List Store) :
    ∀ fuel i, stores.length - i ≤ fuel →
      List.Chain' (fun b1 b2 => b1.getLast? = b2.head?)
        (createBatchesLoop stores fuel i) := by
  intro fuel
  induction fuel with
  | zero =>
    intro i h
    rw [createBatchesLoop_of_le stores 0 i (by omega)]
    exact List.chain'_nil
  | succ f ih =>
    intro i h
    by_cases hi : i < stores.length
    · rw [createBatchesLoop, if_pos hi, List.chain'_cons']
      refine ⟨?_, ih (i + 24) (by omega)⟩
      intro y hy
      by_cases hi24 : i + 24 < stores.length
      · cases f with
        | zero => omega
        | succ f2 =>
          rw [createBatchesLoop, if_pos hi24] at hy
          simp only [List.head?_cons, Option.mem_def, Option.some.injEq] at hy
          subst hy
          have hlen : ((stores.drop i).take 25).length = 25 := by
            rw [List.length_take, List.length_drop]
            omega
          rw [List.getLast?_eq_getElem?, hlen]
          rw [List.getElem?_take, if_pos (by omega), List.getElem?_drop]
          rw [List.head?_eq_getElem?, List.getElem?_take,
            if_pos (by omega), List.getElem?_drop]
      · rw [createBatchesLoop_of_le stores f (i + 24) (by omega)] at hy
        simp at hy
    · rw [createBatchesLoop, if_neg hi]
      exact List.chain'_nil

theorem createBatchesLoop_join (stores : List Store) :
    ∀ fuel i, stores.length - i ≤ fuel → i < stores.length →
      joinOverlapping (createBatchesLoop stores fuel i) =
        stores.drop i := by
  intro fuel
  induction fuel with
  | zero => intro i h hi; omega
  | succ f ih =>
    intro i h hi
    rw [createBatchesLoop, if_pos hi]
    by_cases hi24 : i + 24 < stores.length
    · have hrest := ih (i + 24) (by omega) hi24
      cases f with
      | zero => omega
      | succ f2 =>
        rw [createBatchesLoop, if_pos hi24] at hrest ⊢
        set b1 := (stores.drop (i + 24)).take 25 with hb1
        set rest := createBatchesLoop stores f2 (i + 24 + 24) with hrest2
        have hb1len : 1 ≤ b1.length := by
          rw [hb1, List.length_take, List.length_drop]; omega
        rw [joinOverlapping] at hrest ⊢
        rw [List.map_cons, List.flatten_cons]
        have hdrop : b1.drop 1 ++ (rest.map (fun s => s.drop 1)).flatten =
            stores.drop (i + 25) := by
          have h1 : (b1 ++ (rest.map (fun s => s.drop 1)).flatten).drop 1 =
              b1.drop 1 ++ (rest.map (fun s => s.drop 1)).flatten :=
            List.drop_append_of_le_length hb1len
          rw [← h1, hrest, List.drop_drop]
        calc (stores.drop i).take 25 ++
              (b1.drop 1 ++ (rest.map (fun s => s.drop 1)).flatten)
            = (stores.drop i).take 25 ++ stores.drop (i + 25) := by rw [hdrop]
          _ = (stores.drop i).take 25 ++ (stores.drop i).drop 25 := by
              rw [List.drop_drop]
          _ = stores.drop i := List.take_append_drop 25 (stores.drop i)
    · rw [createBatchesLoop_of_le stores f (i + 24) (by omega)]
      rw [joinOverlapping]
      simp only [List.map_nil, List.flatten_nil, List.append_nil]
      exact List.take_of_length_le (by rw [List.length_drop]; omega)

theorem createBatchesLoop_sizes (stores : List Store) :
    ∀ fuel i b, b ∈ createBatchesLoop stores fuel i → b.length ≤ 25 := by
  intro fuel
  induction fuel with
  | zero => intro i b hb; simp [createBatchesLoop] at hb
  | succ f ih =>
    intro i b hb
    rw [createBatchesLoop] at hb
    by_cases hi : i < stores.length
    · rw [if_pos hi] at hb
      rcases List.mem_cons.mp hb with hb | hb
      · subst hb
        rw [List.length_take]
        exact inf_le_left
      · exact ih (i + 24) b hb
    · rw [if_neg hi] at hb
      simp at hb

/-- A concrete valid stop (nonzero coordinates, distinct ids) used by
the concrete scenarios. -/
def testStop (j : ℕ) : Store :=
  { id := toString j
    name := "S" ++ toString j
    address := ""
    lat := .val 1
    lng := .val 1 }

/-- `n` concrete valid stops. -/
def testStops (n : ℕ) : List Store := (List.range n).map testStop

/-- **C3 (amended).** With the hardcoded `batchSize = 24` and slice
width 25, `createRouteBatches` on `N` stops produces `⌈N/24⌉` segments
(not `⌈(N-2)/L⌉`); it returns the single segment `[stores]` iff
`N ≤ 24` (not `N ≤ L+2`); consecutive segments overlap in exactly the
shared boundary stop (the last stop of one segment is the first of the
next, each segment having at most 25 stops); and concatenating the
segments minus the duplicated boundary stops reproduces the input
exactly. -/
theorem createRouteBatches_spec (stores : List Store) :
    (createRouteBatches stores).length = (stores.length + 23) / 24
    ∧ (1 ≤ stores.length → stores.length ≤ 24 →
        createRouteBatches stores = [stores])
    ∧ List.Chain' (fun b1 b2 => b1.getLast? = b2.head?)
        (createRouteBatches stores)
    ∧ joinOverlapping (createRouteBatches stores) = stores
    ∧ ∀ b ∈ createRouteBatches stores, b.length ≤ 25 := by
  refine ⟨?_, ?_, ?_, ?_, ?_⟩
  · have h := createBatchesLoop_length stores stores.length 0 (by omega)
    simpa using h
  · intro h1 h24
    rw [createRouteBatches]
    obtain ⟨f, hf⟩ : ∃ f, stores.length = f + 1 := ⟨stores.length - 1, by omega⟩
    rw [hf, createBatchesLoop, if_pos (by omega)]
    rw [createBatchesLoop_of_le stores f 24 (by omega)]
    rw [List.drop_zero, List.take_of_length_le (by omega)]
  · exact createBatchesLoop_chain stores stores.length 0 (by omega)
  · by_cases h0 : stores.length = 0
    · have hnil : stores = [] := List.length_eq_zero.mp h0
      subst hnil
      rfl
    · have h := createBatchesLoop_join stores stores.length 0 (by omega) (by omega)
      simpa using h
  · exact fun b hb => createBatchesLoop_sizes stores stores.length 0 b hb

/-- Witness for C3 (amended): five stops give a single whole-input
segment, `⌈5/24⌉ = 1` segment, and reconstruction holds. -/
theorem createRouteBatches_spec_witness :
    createRouteBatches (testStops 5) = [testStops 5]
    ∧ (createRouteBatches (testStops 5)).length = (5 + 23) / 24
    ∧ joinOverlapping (createRouteBatches (testStops 5)) = testStops 5 := by
  have h := createRouteBatches_spec (testStops 5)
  refine ⟨h.2.1 (by decide) (by decide), ?_, h.2.2.2.1⟩
  have h1 := h.1
  rwa [show (testStops 5).length = 5 from rfl] at h1

/-- **C3 counterexample.** For `N = 26` stops and the claimed provider
limit `L = 25`, the claim predicts `⌈(N-2)/L⌉ = 1` segment and — since
`26 ≤ L + 2` — a single segment equal to the whole input, but
`createRouteBatches` produces 2 segments. -/
theorem createRouteBatches_formula_counterexample :
    (createRouteBatches (testStops 26)).length = 2
    ∧ (26 - 2 + 25 - 1) / 25 = 1
    ∧ createRouteBatches (testStops 26) ≠ [testStops 26] := by
  have h26 : (testStops 26).length = 26 := by
    rw [testStops, List.length_map, List.length_range]
  have h := createBatchesLoop_length (testStops 26) (testStops 26).length 0
    (by omega)
  rw [h26] at h
  norm_num at h
  have hlen2 : (createRouteBatches (testStops 26)).length = 2 := by
    rw [createRouteBatches, h26]
    exact h
  refine ⟨hlen2, by norm_num, ?_⟩
  intro heq
  rw [heq] at hlen2
  simp at hlen2

/-- A leg with no metadata, used to build concrete provider
responses. -/
def dummyLeg : RouteLeg := ⟨none, none, "", ""⟩

/-- Modelled from the spec (§6, provider contract): a successful
provider response carries one route with one leg per consecutive stop
pair, i.e. `waypoints + 1` legs; no `waypoint_order`. -/
def contractResult (req : RouteRequest) : DirectionsResult :=
  ⟨[⟨List.replicate (req.waypoints.length + 1) dummyLeg, none⟩]⟩

/-- A provider that always succeeds with the contractual leg count. -/
def contractProvider : RouteRequest → Except JsThrown DirectionsResult :=
  fun req => .ok (contractResult req)

/-- Modelled from the spec (§4.5 step 7, no aggregator exists in the
repository): the total number of legs obtained by concatenating every
segment response's legs. -/
def totalLegs (results : List DirectionsResult) : ℕ :=
  (results.map (fun r => ((r.routes.head?.map Route.legs).getD []).length)).sum

/-- **C2 (amended).** For 60 valid stops: `createRouteBatches` yields 3
segments of at most 27 stops each (in fact at most 25); the standalone
`calculateBatchRoutes` — not `calculateRoute` — issues exactly 3
sequential provider calls, one per segment; and the legs of the three
responses total 59 under the provider leg-count contract.
`calculateRoute` itself performs no batching (see the
counterexample). -/
theorem batchScenario60 :
    (createRouteBatches (testStops 60)).length = 3
    ∧ (∀ b ∈ createRouteBatches (testStops 60), b.length ≤ 27)
    ∧ (calculateBatchRoutes contractProvider
        (createRouteBatches (testStops 60))).2.length = 3
    ∧ (calculateBatchRoutes contractProvider
        (createRouteBatches (testStops 60))).1.toOption.map totalLegs =
        some 59 := by
  have h := createRouteBatches_spec (testStops 60)
  have h60 : (testStops 60).length = 60 := by
    rw [testStops, List.length_map, List.length_range]
  refine ⟨?_, fun b hb => le_trans (h.2.2.2.2 b hb) (by norm_num), ?_, ?_⟩
  · rw [h.1, h60]
  · decide
  · decide

/-- **C2 counterexample.** On 60 valid stops with a fresh cache and an
always-successful provider, `calculateRoute` (the orchestrator the
claim names) issues exactly 1 provider call — all 58 intermediate stops
in a single request — not 3: it never invokes the Batch Planner. -/
theorem calculateRoute_no_batching_counterexample :
    (calculateRoute (fun _ _ => 0) contractProvider 0 ⟨none, none, none, []⟩
      (testStops 60)).requests.length = 1
    ∧ (1 : ℕ) ≠ 3 := by
  refine ⟨?_, by decide⟩
  decide

/-! ### Local sequencer lemmas -/

theorem jsReduceMin_nil (f : Store → ℚ) (a : Store) :
    jsReduceMin f a [] = a := rfl

theorem jsReduceMin_cons (f : Store → ℚ) (a x : Store) (t : List Store) :
    jsReduceMin f a (x :: t) =
      jsReduceMin f (if f x < f a then x else a) t := rfl

theorem jsReduceMin_mem (f : Store → ℚ) (l : List Store) :
    ∀ a, jsReduceMin f a l ∈ a :: l := by
  induction l with
  | nil => intro a; simp [jsReduceMin]
  | cons x t ih =>
    intro a
    rw [jsReduceMin_cons]
    rcases List.mem_cons.mp (ih (if f x < f a then x else a)) with h | h
    · rw [h]
      by_cases hc : f x < f a <;> simp [hc]
    · exact List.mem_cons_of_mem _ (List.mem_cons_of_mem _ h)

theorem jsReduceMin_dichotomy (f : Store → ℚ) (t : List Store) :
    ∀ a x, jsReduceMin f a (x :: t) =
      if f (jsReduceMin f x t) < f a then jsReduceMin f x t else a := by
  induction t with
  | nil =>
    intro a x
    rw [jsReduceMin_cons, jsReduceMin_nil, jsReduceMin_nil]
  | cons y s ih =>
    intro a x
    rw [jsReduceMin_cons, ih (if f x < f a then x else a) y, ih x y]
    by_cases h2 : f x < f a
    · rw [if_pos h2]
      by_cases h1 : f (jsReduceMin f y s) < f x
      · rw [if_pos h1, if_pos (lt_trans h1 h2)]
      · rw [if_neg h1, if_pos h2]
    · rw [if_neg h2]
      by_cases h1 : f (jsReduceMin f y s) < f x
      · rw [if_pos h1]
      · rw [if_neg h1, if_neg h2,
          if_neg (not_lt.mpr (le_trans (not_lt.mp h2) (not_lt.mp h1)))]

theorem firstMinIndex_getElem (f : Store → ℚ) (l : List Store) :
    ∀ a, (a :: l)[firstMinIndex f (a :: l)]? = some (jsReduceMin f a l) := by
  induction l with
  | nil => intro a; rfl
  | cons x t ih =>
    intro a
    have hunf : firstMinIndex f (a :: x :: t) =
        match (x :: t)[firstMinIndex f (x :: t)]? with
        | none => 0
        | some y => if f y < f a then firstMinIndex f (x :: t) + 1 else 0 :=
      rfl
    rw [jsReduceMin_dichotomy f t a x]
    simp only [hunf, ih x]
    by_cases hc : f (jsReduceMin f x t) < f a
    · rw [if_pos hc, if_pos hc, List.getElem?_cons_succ]
      exact ih x
    · rw [if_neg hc, if_neg hc, List.getElem?_cons_zero]

theorem firstMinIndex_strict (f : Store → ℚ) (l : List Store) :
    ∀ a i y, i < firstMinIndex f (a :: l) → (a :: l)[i]? = some y →
      f (jsReduceMin f a l) < f y := by
  induction l with
  | nil =>
    intro a i y hi _
    rw [show firstMinIndex f [a] = 0 from rfl] at hi
    omega
  | cons x t ih =>
    intro a i y hi hy
    have hunf : firstMinIndex f (a :: x :: t) =
        match (x :: t)[firstMinIndex f (x :: t)]? with
        | none => 0
        | some y => if f y < f a then firstMinIndex f (x :: t) + 1 else 0 :=
      rfl
    rw [jsReduceMin_dichotomy f t a x]
    simp only [hunf, firstMinIndex_getElem f t x] at hi
    by_cases hc : f (jsReduceMin f x t) < f a
    · rw [if_pos hc] at hi
      rw [if_pos hc]
      cases i with
      | zero =>
        rw [List.getElem?_cons_zero] at hy
        injection hy with hy
        rw [← hy]
        exact hc
      | succ i2 =>
        rw [List.getElem?_cons_succ] at hy
        exact ih x i2 y (by omega) hy
    · rw [if_neg hc] at hi
      omega

theorem erase_eq_eraseIdx_of_first (u : List Store) :
    ∀ j m, u[j]? = some m → (∀ i y, i < j → u[i]? = some y → y ≠ m) →
      u.erase m = u.eraseIdx j := by
  induction u with
  | nil => intro j m hj _; simp at hj
  | cons z t ih =>
    intro j m hj hfirst
    cases j with
    | zero =>
      rw [List.getElem?_cons_zero] at hj
      injection hj with hj
      subst hj
      rw [List.erase_cons_head]
      rfl
    | succ j2 =>
      have hz : z ≠ m :=
        hfirst 0 z (Nat.succ_pos j2) List.getElem?_cons_zero
      rw [List.getElem?_cons_succ] at hj
      rw [List.erase_cons_tail (by simpa using hz), List.eraseIdx_cons_succ]
      congr 1
      exact ih j2 m hj
        (fun i y hi hy => hfirst (i + 1) y (by omega)
          (by rwa [List.getElem?_cons_succ]))

theorem nnLoop_perm (dist : Store → Store → ℚ) :
    ∀ fuel (u : List Store) c, u.length ≤ fuel →
      (nnLoop dist fuel c u).Perm u := by
  intro fuel
  induction fuel with
  | zero =>
    intro u c h
    rw [List.length_eq_zero.mp (Nat.le_zero.mp h)]
    exact List.Perm.refl _
  | succ f ih =>
    intro u c h
    cases u with
    | nil => exact List.Perm.refl _
    | cons x xs =>
      rw [nnLoop]
      have hmem := jsReduceMin_mem (dist c) xs x
      have hlen :
          ((x :: xs).erase (jsReduceMin (dist c) x xs)).length ≤ f := by
        rw [List.length_erase_of_mem hmem]
        simpa using h
      exact ((ih _ _ hlen).cons _).trans (List.perm_cons_erase hmem).symm

theorem nnLoop_eq_greedySpecLoop (dist : Store → Store → ℚ) :
    ∀ fuel (u : List Store) c, u.length ≤ fuel →
      nnLoop dist fuel c u = greedySpecLoop dist fuel c u := by
  intro fuel
  induction fuel with
  | zero => intro u c h; rfl
  | succ f ih =>
    intro u c h
    cases u with
    | nil => rfl
    | cons x xs =>
      rw [nnLoop, greedySpecLoop]
      simp only [firstMinIndex_getElem (dist c) xs x]
      have herase : (x :: xs).erase (jsReduceMin (dist c) x xs) =
          (x :: xs).eraseIdx (firstMinIndex (dist c) (x :: xs)) := by
        apply erase_eq_eraseIdx_of_first
        · exact firstMinIndex_getElem (dist c) xs x
        · intro i y hi hy hym
          have hlt := firstMinIndex_strict (dist c) xs x i y hi hy
          rw [hym] at hlt
          exact lt_irrefl _ hlt
      rw [← herase]
      congr 1
      apply ih
      rw [List.length_erase_of_mem (jsReduceMin_mem (dist c) xs x)]
      simpa using h

theorem optimizeNearestNeighbor_perm (dist : Store → Store → ℚ)
    (stores : List Store) :
    (optimizeNearestNeighbor dist stores).Perm stores := by
  rw [optimizeNearestNeighbor.eq_def]
  by_cases h1 : stores.length ≤ 1
  · rw [if_pos h1]
  · rw [if_neg h1]
    cases stores with
    | nil => exact List.Perm.refl _
    | cons c u => exact (nnLoop_perm dist u.length u c le_rfl).cons c

/-- **C7.** `optimizeNearestNeighbor` returns a permutation of its
input that starts from the first element; for size ≤ 1 it returns the
input unchanged; and it equals the spec-worded greedy sequencer
(`greedySpec`: repeatedly append the not-yet-visited stop at the
*first* position attaining the minimum distance to the last-appended
stop).  The equality with `greedySpec` — a pure function — also
renders the claimed determinism: the same input always yields the
identical output.  The theorem holds for every distance function, in
particular the haversine distance. -/
theorem optimizeNearestNeighbor_spec (dist : Store → Store → ℚ)
    (stores : List Store) :
    (optimizeNearestNeighbor dist stores).Perm stores
    ∧ (∀ c rest, stores = c :: rest →
        (optimizeNearestNeighbor dist stores).head? = some c)
    ∧ (stores.length ≤ 1 → optimizeNearestNeighbor dist stores = stores)
    ∧ optimizeNearestNeighbor dist stores = greedySpec dist stores := by
  refine ⟨optimizeNearestNeighbor_perm dist stores, ?_, ?_, ?_⟩
  · intro c rest hst
    subst hst
    rw [optimizeNearestNeighbor.eq_def]
    by_cases h1 : (c :: rest).length ≤ 1
    · rw [if_pos h1]
      rfl
    · rw [if_neg h1]
      rfl
  · intro h1
    rw [optimizeNearestNeighbor.eq_def, if_pos h1]
  · rw [optimizeNearestNeighbor.eq_def, greedySpec.eq_def]
    by_cases h1 : stores.length ≤ 1
    · rw [if_pos h1, if_pos h1]
    · rw [if_neg h1, if_neg h1]
      cases stores with
      | nil => rfl
      | cons c u =>
        show c :: nnLoop dist u.length c u =
          c :: greedySpecLoop dist u.length c u
        rw [nnLoop_eq_greedySpecLoop dist u.length u c le_rfl]

/-- Concrete stops for the sequencer witness. -/
def wStopA : Store := ⟨"a", "A", "", .val 1, .val 1⟩

/-- Concrete stops for the sequencer witness. -/
def wStopB : Store := ⟨"b", "B", "", .val 1, .val 1⟩

/-- Concrete stops for the sequencer witness. -/
def wStopC : Store := ⟨"c", "C", "", .val 1, .val 1⟩

/-- A concrete distance under which the greedy order from `a` is
`a, c, b`. -/
def wDist : Store → Store → ℚ := fun s t =>
  if s.id = "a" ∧ t.id = "c" then 0
  else if s.id = "c" ∧ t.id = "b" then 0
  else 1

/-- Witness for C7 at the three concrete stops (and at a singleton for
the size ≤ 1 clause). -/
theorem optimizeNearestNeighbor_spec_witness :
    (optimizeNearestNeighbor wDist [wStopA, wStopB, wStopC]).Perm
      [wStopA, wStopB, wStopC]
    ∧ (optimizeNearestNeighbor wDist [wStopA, wStopB, wStopC]).head? =
        some wStopA
    ∧ optimizeNearestNeighbor wDist [wStopA] = [wStopA]
    ∧ optimizeNearestNeighbor wDist [wStopA, wStopB, wStopC] =
        greedySpec wDist [wStopA, wStopB, wStopC] := by
  have h := optimizeNearestNeighbor_spec wDist [wStopA, wStopB, wStopC]
  have h1 := optimizeNearestNeighbor_spec wDist [wStopA]
  exact ⟨h.1, h.2.1 wStopA [wStopB, wStopC] rfl, h1.2.2.1 (by decide),
    h.2.2.2⟩

/-! ### Orchestrator lemmas -/

theorem getCachedRoute_miss (cache : Cache) (now : ℤ) (ids : List String)
    (h : mapGet cache (cacheKey ids) = none) :
    getCachedRoute cache now ids = ⟨sortIds ids, cache, none⟩ := by
  have h2 : mapGet cache (String.intercalate "," (sortIds ids)) = none := h
  simp only [getCachedRoute, h2]

theorem getCachedRoute_hit (cache : Cache) (now : ℤ) (ids : List String)
    (cached : CachedRoute)
    (h : mapGet cache (cacheKey ids) = some cached)
    (httl : ¬now - cached.timestamp > cacheTTL) :
    getCachedRoute cache now ids =
      ⟨sortIds ids, cache, some cached.result⟩ := by
  have h2 : mapGet cache (String.intercalate "," (sortIds ids)) =
      some cached := h
  simp only [getCachedRoute, h2, if_neg httl]

theorem extractRouteStats_isSome (result : DirectionsResult)
    (stores : List Store) (r0 : Route) (rs : List Route)
    (hroutes : result.routes = r0 :: rs) (hlegs : r0.legs ≠ []) :
    ∃ stats, extractRouteStats result stores = some stats := by
  unfold extractRouteStats
  rw [hroutes]
  cases hgl : r0.legs.getLast? with
  | none => exact absurd (List.getLast?_eq_none_iff.mp hgl) hlegs
  | some lastLeg =>
    simp only [hgl]
    exact ⟨_, rfl⟩

theorem calculateRoute_miss_eq (dist : Store → Store → ℚ)
    (route : RouteRequest → Except JsThrown DirectionsResult)
    (now : ℤ) (st : HookState) (stores : List Store)
    (hv : 2 ≤ (stores.filter isValidStore).length)
    (hmiss : mapGet st.cache
      (cacheKey ((stores.filter isValidStore).map Store.id)) = none) :
    ∃ o0 orest,
      optimizeNearestNeighbor dist (stores.filter isValidStore) =
        o0 :: orest
      ∧ (o0 :: orest).Perm (stores.filter isValidStore)
      ∧ calculateRoute dist route now st stores =
          missFlow route now { st with error := none }
            (sortIds ((stores.filter isValidStore).map Store.id)) o0 orest := by
  have hperm :=
    optimizeNearestNeighbor_perm dist (stores.filter isValidStore)
  have hne : optimizeNearestNeighbor dist (stores.filter isValidStore) ≠ [] := by
    intro hnil
    have := hperm.length_eq
    rw [hnil] at this
    simp at this
    omega
  obtain ⟨o0, orest, hopt⟩ := List.exists_cons_of_ne_nil hne
  refine ⟨o0, orest, hopt, hopt ▸ hperm, ?_⟩
  have h2 : ¬stores.length < 2 := by
    have := List.length_filter_le isValidStore stores
    omega
  have hv2 : ¬(stores.filter isValidStore).length < 2 := by omega
  simp only [calculateRoute, if_neg h2, if_neg hv2,
    getCachedRoute_miss st.cache now _ hmiss, hopt]

/-- **C4 (amended).** If fewer than 2 stops pass the code's coordinate
filter — JS truthiness of `lat` and `lng` plus a `NaN` test, which
rejects the coordinate 0 and performs *no* range check — then
`calculateRoute` returns `false` with one of the two insufficient-stop
error messages (the `InsufficientStops` outcome), issues zero provider
calls, and leaves the cache untouched. -/
theorem calculateRoute_insufficient (dist : Store → Store → ℚ)
    (route : RouteRequest → Except JsThrown DirectionsResult)
    (now : ℤ) (st : HookState) (stores : List Store)
    (h : (stores.filter isValidStore).length < 2) :
    (calculateRoute dist route now st stores).returned = some false
    ∧ (calculateRoute dist route now st stores).requests = []
    ∧ ((calculateRoute dist route now st stores).state.error =
          some "Please select at least 2 stores"
        ∨ (calculateRoute dist route now st stores).state.error =
          some "Some stores have invalid coordinates")
    ∧ (calculateRoute dist route now st stores).state.cache = st.cache := by
  by_cases h2 : stores.length < 2
  · simp only [calculateRoute, if_pos h2]
    exact ⟨trivial, trivial, Or.inl trivial, trivial⟩
  · simp only [calculateRoute, if_neg h2, if_pos h]
    exact ⟨trivial, trivial, Or.inr trivial, trivial⟩

/-- Witness for C4 (amended): a single valid stop is rejected with no
provider call. -/
theorem calculateRoute_insufficient_witness :
    (calculateRoute (fun _ _ => 0) contractProvider 0 ⟨none, none, none, []⟩
      [wStopA]).returned = some false
    ∧ (calculateRoute (fun _ _ => 0) contractProvider 0 ⟨none, none, none, []⟩
      [wStopA]).requests = [] := by
  have h := calculateRoute_insufficient (fun _ _ => 0) contractProvider 0
    ⟨none, none, none, []⟩ [wStopA] (by decide)
  exact ⟨h.1, h.2.1⟩

/-- A stop whose coordinates are far outside the legal ranges but pass
the code's truthiness filter. -/
def oorStopA : Store := ⟨"x", "X", "", .val 91, .val 200⟩

/-- A second out-of-range stop. -/
def oorStopB : Store := ⟨"y", "Y", "", .val 95, .val 200⟩

/-- **C4 counterexample.** Two stops whose coordinates are out of range
(latitude 91 and 95, longitude 200): by the claim's validity predicate
zero stops are valid, so the claim demands `InsufficientStops` with
zero provider calls — but the code's filter checks only truthiness and
`NaN`, accepts both stops, and issues a provider call. -/
theorem calculateRoute_range_counterexample :
    ([oorStopA, oorStopB].filter specValidStore).length = 0
    ∧ (calculateRoute (fun _ _ => 0) contractProvider 0 ⟨none, none, none, []⟩
        [oorStopA, oorStopB]).requests.length = 1
    ∧ (calculateRoute (fun _ _ => 0) contractProvider 0 ⟨none, none, none, []⟩
        [oorStopA, oorStopB]).returned = some true := by
  refine ⟨by decide, by decide, by decide⟩

/-- **C8.** When the provider rejects, the whole `calculateRoute` call
aborts: it returns `false`, no partial route result survives
(`directionsResult` and `routeStats` are cleared to `null`), the error
is the mapped provider failure, the cache is left untouched (no entry
is written for the failed stop set), and exactly the one failed request
was issued. -/
theorem calculateRoute_abort_on_failure (dist : Store → Store → ℚ)
    (route : RouteRequest → Except JsThrown DirectionsResult)
    (now : ℤ) (st : HookState) (stores : List Store) (e : JsThrown)
    (hv : 2 ≤ (stores.filter isValidStore).length)
    (hmiss : mapGet st.cache
      (cacheKey ((stores.filter isValidStore).map Store.id)) = none)
    (herr : ∀ req, route req = .error e) :
    (calculateRoute dist route now st stores).returned = some false
    ∧ (calculateRoute dist route now st stores).state.directionsResult = none
    ∧ (calculateRoute dist route now st stores).state.routeStats = none
    ∧ (calculateRoute dist route now st stores).state.cache = st.cache
    ∧ (calculateRoute dist route now st stores).state.error =
        some (handleDirectionsError e)
    ∧ (calculateRoute dist route now st stores).requests.length = 1 := by
  obtain ⟨o0, orest, hopt, hperm, heq⟩ :=
    calculateRoute_miss_eq dist route now st stores hv hmiss
  rw [heq]
  simp only [missFlow, herr]
  exact ⟨trivial, trivial, trivial, trivial, trivial, rfl⟩

/-- A provider that always rejects with `ZERO_RESULTS`. -/
def failProvider : RouteRequest → Except JsThrown DirectionsResult :=
  fun _ => .error (JsThrown.error "ZERO_RESULTS")

/-- Witness for C8: two valid stops, a fresh cache, a provider
rejecting with `ZERO_RESULTS`: the call fails, state is cleared, the
cache stays empty. -/
theorem calculateRoute_abort_on_failure_witness :
    (calculateRoute (fun _ _ => 0) failProvider 0 ⟨none, none, none, []⟩
      [wStopA, wStopB]).returned = some false
    ∧ (calculateRoute (fun _ _ => 0) failProvider 0 ⟨none, none, none, []⟩
      [wStopA, wStopB]).state.directionsResult = none
    ∧ (calculateRoute (fun _ _ => 0) failProvider 0 ⟨none, none, none, []⟩
      [wStopA, wStopB]).state.cache = [] := by
  have h := calculateRoute_abort_on_failure (fun _ _ => 0) failProvider 0
    ⟨none, none, none, []⟩ [wStopA, wStopB] (JsThrown.error "ZERO_RESULTS")
    (by decide) rfl (fun _ => rfl)
  exact ⟨h.1, h.2.1, h.2.2.2.1⟩

theorem calculateRoute_hit_eq (dist : Store → Store → ℚ)
    (route : RouteRequest → Except JsThrown DirectionsResult)
    (now : ℤ) (st : HookState) (stores : List Store)
    (cached : CachedRoute) (stats : RouteStats)
    (h2 : ¬stores.length < 2)
    (hv2 : ¬(stores.filter isValidStore).length < 2)
    (hget : mapGet st.cache
      (cacheKey ((stores.filter isValidStore).map Store.id)) = some cached)
    (httl : ¬now - cached.timestamp > cacheTTL)
    (hstats : extractRouteStats cached.result (stores.filter isValidStore) =
      some stats) :
    calculateRoute dist route now st stores =
      ⟨some true,
        { st with
            directionsResult := some cached.result
            routeStats := some stats
            error := none },
        [], some (stores.filter isValidStore)⟩ := by
  simp only [calculateRoute, if_neg h2, if_neg hv2,
    getCachedRoute_hit st.cache now _ cached hget httl, hstats]

/-- **C5.** With a fresh cache key, two consecutive `calculateRoute`
calls on the same stop list within the TTL issue exactly one provider
call in total: the first call issues the single request and stores its
result; the second call — whatever provider or distance it would use —
issues no request, returns `true`, hands back the identical cached
`DirectionsResult`, and leaves the cache exactly as the first call left
it. -/
theorem calculateRoute_cached_idempotent (dist dist2 : Store → Store → ℚ)
    (route route2 : RouteRequest → Except JsThrown DirectionsResult)
    (now1 now2 : ℤ) (st : HookState) (stores : List Store)
    (hv : 2 ≤ (stores.filter isValidStore).length)
    (hmiss : mapGet st.cache
      (cacheKey ((stores.filter isValidStore).map Store.id)) = none)
    (hprov : ∀ req, ∃ r0 rs, route req = .ok ⟨r0 :: rs⟩ ∧ r0.legs ≠ [])
    (httl : ¬now2 - now1 > cacheTTL) :
    (calculateRoute dist route now1 st stores).returned = some true
    ∧ (calculateRoute dist route now1 st stores).requests.length = 1
    ∧ (calculateRoute dist2 route2 now2
        (calculateRoute dist route now1 st stores).state stores).requests = []
    ∧ (calculateRoute dist2 route2 now2
        (calculateRoute dist route now1 st stores).state stores).returned =
        some true
    ∧ (calculateRoute dist2 route2 now2
        (calculateRoute dist route now1 st stores).state
        stores).state.directionsResult =
        (calculateRoute dist route now1 st stores).state.directionsResult
    ∧ (calculateRoute dist2 route2 now2
        (calculateRoute dist route now1 st stores).state stores).state.cache =
        (calculateRoute dist route now1 st stores).state.cache := by
  obtain ⟨o0, orest, hopt, hperm, heq⟩ :=
    calculateRoute_miss_eq dist route now1 st stores hv hmiss
  obtain ⟨r0, rs, hok, hlegs⟩ := hprov (mkRouteRequest o0 orest)
  obtain ⟨stats, hstats⟩ := extractRouteStats_isSome ⟨r0 :: rs⟩
    (remapFinalOrder o0 orest ⟨r0 :: rs⟩) r0 rs rfl hlegs
  have hfirst : calculateRoute dist route now1 st stores =
      ⟨some true,
        { st with
            error := none
            directionsResult := some (⟨r0 :: rs⟩ : DirectionsResult)
            routeStats := some stats
            cache := (setCachedRoute st.cache now1
              (sortIds ((stores.filter isValidStore).map Store.id))
              ⟨r0 :: rs⟩).cache },
        [mkRouteRequest o0 orest],
        some (remapFinalOrder o0 orest ⟨r0 :: rs⟩)⟩ := by
    rw [heq]
    simp only [missFlow, hok, hstats]
  have hids : sortIds (sortIds ((stores.filter isValidStore).map Store.id)) =
      sortIds ((stores.filter isValidStore).map Store.id) :=
    sortIds_eq_of_perm
      (sortIds_perm ((stores.filter isValidStore).map Store.id))
  have hkey : String.intercalate ","
      (sortIds (sortIds ((stores.filter isValidStore).map Store.id))) =
      cacheKey ((stores.filter isValidStore).map Store.id) := by
    rw [hids]
    rfl
  have hentry : mapGet (calculateRoute dist route now1 st stores).state.cache
      (cacheKey ((stores.filter isValidStore).map Store.id)) =
      some ⟨sortIds (sortIds ((stores.filter isValidStore).map Store.id)),
        ⟨r0 :: rs⟩, now1⟩ := by
    rw [hfirst]
    simp only [setCachedRoute]
    rw [← hkey]
    exact mapGet_mapSet_self _ _ _
  obtain ⟨stats2, hstats2⟩ := extractRouteStats_isSome ⟨r0 :: rs⟩
    (stores.filter isValidStore) r0 rs rfl hlegs
  have h2 : ¬stores.length < 2 := by
    have := List.length_filter_le isValidStore stores
    omega
  have hv2 : ¬(stores.filter isValidStore).length < 2 := by omega
  have hsecond := calculateRoute_hit_eq dist2 route2 now2
    (calculateRoute dist route now1 st stores).state stores
    ⟨sortIds (sortIds ((stores.filter isValidStore).map Store.id)),
      ⟨r0 :: rs⟩, now1⟩
    stats2 h2 hv2 hentry httl hstats2
  refine ⟨?_, ?_, ?_, ?_, ?_, ?_⟩
  · rw [hfirst]
  · rw [hfirst]
    rfl
  · rw [hsecond]
  · rw [hsecond]
  · rw [hsecond, hfirst]
  · rw [hsecond]

/-- Witness for C5: two concrete valid stops, a fresh cache, the
always-successful contract provider, second call 1000 ms later. -/
theorem calculateRoute_cached_idempotent_witness :
    (calculateRoute (fun _ _ => 0) contractProvider 0 ⟨none, none, none, []⟩
      [wStopA, wStopB]).requests.length = 1
    ∧ (calculateRoute (fun _ _ => 0) contractProvider 1000
        (calculateRoute (fun _ _ => 0) contractProvider 0
          ⟨none, none, none, []⟩ [wStopA, wStopB]).state
        [wStopA, wStopB]).requests = []
    ∧ (calculateRoute (fun _ _ => 0) contractProvider 1000
        (calculateRoute (fun _ _ => 0) contractProvider 0
          ⟨none, none, none, []⟩ [wStopA, wStopB]).state
        [wStopA, wStopB]).state.directionsResult =
        (calculateRoute (fun _ _ => 0) contractProvider 0
          ⟨none, none, none, []⟩ [wStopA, wStopB]).state.directionsResult := by
  have h := calculateRoute_cached_idempotent (fun _ _ => 0) (fun _ _ => 0)
    contractProvider contractProvider 0 1000 ⟨none, none, none, []⟩
    [wStopA, wStopB] (by decide) rfl
    (fun req => ⟨⟨List.replicate (req.waypoints.length + 1) dummyLeg, none⟩,
      [], rfl, by simp⟩)
    (by decide)
  exact ⟨h.2.1, h.2.2.1, h.2.2.2.2.1⟩

theorem range_filterMap_getElem (l : List Store) :
    (List.range l.length).filterMap (fun i => l[i]?) = l := by
  induction l with
  | nil => rfl
  | cons x xs ih =>
    rw [List.length_cons, List.range_succ_eq_map, List.filterMap_cons]
    simp only [List.getElem?_cons_zero]
    rw [List.filterMap_map]
    have hfun : (fun i => (x :: xs)[i]?) ∘ Nat.succ = fun i => xs[i]? := by
      funext i
      simp [List.getElem?_cons_succ]
    rw [hfun, ih]

theorem remapFinalOrder_spec (o0 : Store) (orest : List Store)
    (r0 : Route) (rs : List Route)
    (hne : orest ≠ [])
    (hord : ∀ ord, r0.waypointOrder = some ord →
      ord.Perm (List.range orest.dropLast.length)) :
    (remapFinalOrder o0 orest ⟨r0 :: rs⟩).Perm (o0 :: orest)
    ∧ (remapFinalOrder o0 orest ⟨r0 :: rs⟩).length = orest.length + 1 := by
  have hscrut : ((⟨r0 :: rs⟩ : DirectionsResult).routes.head? >>=
      Route.waypointOrder) = r0.waypointOrder := rfl
  unfold remapFinalOrder
  cases hwo : r0.waypointOrder with
  | none =>
    simp only [hscrut, hwo]
    exact ⟨List.Perm.refl _, rfl⟩
  | some ord =>
    simp only [hscrut, hwo]
    have hperm := hord ord hwo
    have hsplit : orest.dropLast ++ [orest.getLast hne] = orest :=
      List.dropLast_append_getLast hne
    have hmem : ∀ idx ∈ ord, (o0 :: orest)[idx + 1]? = orest.dropLast[idx]? := by
      intro idx hidx
      have hlt : idx < orest.dropLast.length :=
        List.mem_range.mp (hperm.mem_iff.mp hidx)
      rw [List.getElem?_cons_succ]
      conv_lhs => rw [← hsplit]
      rw [List.getElem?_append, if_pos hlt]
    have hmap : ord.filterMap (fun idx => (o0 :: orest)[idx + 1]?) =
        ord.filterMap (fun idx => orest.dropLast[idx]?) :=
      List.filterMap_congr hmem
    have hperm2 : (ord.filterMap (fun idx => orest.dropLast[idx]?)).Perm
        orest.dropLast := by
      have h1 := List.Perm.filterMap (fun idx => orest.dropLast[idx]?) hperm
      rw [range_filterMap_getElem orest.dropLast] at h1
      exact h1
    have hlastD : orest.getLastD o0 = orest.getLast hne := by
      rw [List.getLastD_eq_getLast?, List.getLast?_eq_getLast orest hne]
      rfl
    constructor
    · rw [hmap, hlastD]
      have hstep : (o0 :: (ord.filterMap (fun idx => orest.dropLast[idx]?) ++
          [orest.getLast hne])).Perm
          (o0 :: (orest.dropLast ++ [orest.getLast hne])) :=
        (hperm2.append_right [orest.getLast hne]).cons o0
      rw [hsplit] at hstep
      exact hstep
    · rw [hmap]
      have hlen : (ord.filterMap (fun idx => orest.dropLast[idx]?)).length =
          orest.dropLast.length := hperm2.length_eq
      have hl2 := List.length_dropLast orest
      have hne2 : 1 ≤ orest.length := by
        cases orest with
        | nil => exact absurd rfl hne
        | cons a b => simp
      simp only [List.length_cons, List.length_append, List.length_nil]
      omega

/-- **C1.** With at least 2 code-valid stops and a fresh cache key,
when the provider succeeds and supplies well-formed responses — one
route, `waypoints + 1` legs (spec §6), and any `waypoint_order` it
reports being an index permutation of the submitted intermediate
waypoints — `calculateRoute` succeeds, and its final stop order (the
list handed to `extractRouteStats`, built by keeping the origin first
and the destination last and mapping index `i` to the submitted
waypoint at position `i + 1`) is a permutation of the valid stops and
satisfies `legs.length + 1 = orderedStops.length`. -/
theorem calculateRoute_success_order (dist : Store → Store → ℚ)
    (route : RouteRequest → Except JsThrown DirectionsResult)
    (now : ℤ) (st : HookState) (stores : List Store)
    (hv : 2 ≤ (stores.filter isValidStore).length)
    (hmiss : mapGet st.cache
      (cacheKey ((stores.filter isValidStore).map Store.id)) = none)
    (hprov : ∀ req, ∃ r0 rs, route req = .ok ⟨r0 :: rs⟩
      ∧ r0.legs.length = req.waypoints.length + 1
      ∧ ∀ ord, r0.waypointOrder = some ord →
          ord.Perm (List.range req.waypoints.length)) :
    (calculateRoute dist route now st stores).returned = some true
    ∧ ∃ fo, (calculateRoute dist route now st stores).statsStores = some fo
        ∧ fo.Perm (stores.filter isValidStore)
        ∧ ∃ result r0 rs,
            (calculateRoute dist route now st stores).state.directionsResult =
              some result
            ∧ result.routes = r0 :: rs
            ∧ r0.legs.length + 1 = fo.length := by
  obtain ⟨o0, orest, hopt, hperm, heq⟩ :=
    calculateRoute_miss_eq dist route now st stores hv hmiss
  obtain ⟨r0, rs, hok, hlegcount, hords⟩ := hprov (mkRouteRequest o0 orest)
  have hne : orest ≠ [] := by
    intro hnil
    have hl := hperm.length_eq
    rw [hnil] at hl
    simp at hl
    omega
  have hwplen : (mkRouteRequest o0 orest).waypoints.length =
      orest.dropLast.length := by
    rw [mkRouteRequest]
    simp [List.length_map]
  have hremap := remapFinalOrder_spec o0 orest r0 rs hne
    (by rw [← hwplen]; exact hords)
  have hlegs : r0.legs ≠ [] := by
    intro hnil
    rw [hnil] at hlegcount
    simp at hlegcount
  obtain ⟨stats, hstats⟩ := extractRouteStats_isSome ⟨r0 :: rs⟩
    (remapFinalOrder o0 orest ⟨r0 :: rs⟩) r0 rs rfl hlegs
  have hcall : calculateRoute dist route now st stores =
      ⟨some true,
        { st with
            error := none
            directionsResult := some (⟨r0 :: rs⟩ : DirectionsResult)
            routeStats := some stats
            cache := (setCachedRoute st.cache now
              (sortIds ((stores.filter isValidStore).map Store.id))
              ⟨r0 :: rs⟩).cache },
        [mkRouteRequest o0 orest],
        some (remapFinalOrder o0 orest ⟨r0 :: rs⟩)⟩ := by
    rw [heq]
    simp only [missFlow, hok, hstats]
  refine ⟨by rw [hcall], remapFinalOrder o0 orest ⟨r0 :: rs⟩,
    by rw [hcall], hremap.1.trans hperm, ⟨r0 :: rs⟩, r0, rs,
    by rw [hcall], rfl, ?_⟩
  rw [hlegcount, hwplen, hremap.2]
  have hne2 : 1 ≤ orest.length := by
    cases orest with
    | nil => exact absurd rfl hne
    | cons a b => simp
  rw [List.length_dropLast]
  omega

/-- A provider that reverses the submitted intermediate waypoints via
`waypoint_order` and reports the contractual `waypoints + 1` legs. -/
def reverseProvider : RouteRequest → Except JsThrown DirectionsResult :=
  fun req => .ok ⟨[⟨List.replicate (req.waypoints.length + 1) dummyLeg,
    some (List.range req.waypoints.length).reverse⟩]⟩

/-- Witness for C1: three concrete stops and a provider reversing the
single intermediate waypoint. -/
theorem calculateRoute_success_order_witness :
    (calculateRoute wDist reverseProvider 0 ⟨none, none, none, []⟩
      [wStopA, wStopB, wStopC]).returned = some true
    ∧ ∃ fo, (calculateRoute wDist reverseProvider 0 ⟨none, none, none, []⟩
        [wStopA, wStopB, wStopC]).statsStores = some fo
        ∧ fo.Perm ([wStopA, wStopB, wStopC].filter isValidStore)
        ∧ ∃ result r0 rs,
            (calculateRoute wDist reverseProvider 0 ⟨none, none, none, []⟩
              [wStopA, wStopB, wStopC]).state.directionsResult = some result
            ∧ result.routes = r0 :: rs
            ∧ r0.legs.length + 1 = fo.length :=
  calculateRoute_success_order wDist reverseProvider 0 ⟨none, none, none, []⟩
    [wStopA, wStopB, wStopC] (by decide) rfl
    (fun req => ⟨⟨List.replicate (req.waypoints.length + 1) dummyLeg,
        some (List.range req.waypoints.length).reverse⟩, [], rfl,
      by rw [List.length_replicate],
      fun ord hord => by
        injection hord with h
        rw [← h]
        exact List.reverse_perm _⟩)

end LiquorRoute
